import Mathlib

/-!
Verification of the capacity-report aggregation and pivot logic of
`pretix_capacity_reports/exporter.py` (class `CapacityUtilizationReport`).

Conventions of the shallow embedding:

* A calendar date is an integer day index chosen so that day `0` is a Monday;
  hence `d % 7` agrees with Python's `date.weekday()` (Monday = 0, Saturday = 5).
* A timestamp is an integer minute count; `minutesPerDay * d` is midnight of
  day `d` in the report time zone, and `TruncDay` corresponds to flooring
  division by `minutesPerDay`.
* Python generators are embedded as `List`-valued functions; a Django queryset
  is a `List` of records filtered by a boolean predicate.  A comparison such as
  `subevent__date_from >= x` on a row whose `subevent` foreign key is NULL is
  false in SQL, and the embedding mirrors that (`Option.none` branches yield
  `false`).
-/

/-- `CapacityUtilizationReport._date_iter`: the day sequence
`date_from, date_from + 1, ..., date_to` (empty when `date_from > date_to`).
The Python `while dt <= date_until` loop is rendered as a range map; the
lemmas `dateIter_stop` and `dateIter_step` certify the loop semantics. -/
def dateIter (a b : ℤ) : List ℤ :=
  (List.range (b + 1 - a).toNat).map (fun i : ℕ => a + (i : ℤ))

theorem dateIter_stop {a b : ℤ} (h : b < a) : dateIter a b = [] := by
  have hn : (b + 1 - a).toNat = 0 := by omega
  simp [dateIter, hn]

theorem dateIter_step {a b : ℤ} (h : a ≤ b) : dateIter a b = a :: dateIter (a + 1) b := by
  have hn : (b + 1 - a).toNat = (b + 1 - (a + 1)).toNat + 1 := by omega
  rw [dateIter, hn, List.range_succ_eq_map, List.map_cons, List.map_map]
  have h0 : a + ((0 : ℕ) : ℤ) = a := by push_cast; ring
  rw [h0]
  congr 1
  rw [dateIter]
  refine List.map_congr_left ?_
  intro i _
  simp only [Function.comp_apply, Nat.succ_eq_add_one]
  push_cast
  ring

theorem length_dateIter (a b : ℤ) : (dateIter a b).length = (b + 1 - a).toNat := by
  simp [dateIter]

theorem mem_dateIter {a b d : ℤ} : d ∈ dateIter a b ↔ a ≤ d ∧ d ≤ b := by
  simp only [dateIter, List.mem_map, List.mem_range]
  constructor
  · rintro ⟨i, hi, rfl⟩
    omega
  · rintro ⟨h1, h2⟩
    exact ⟨(d - a).toNat, by omega, by omega⟩

theorem getElem?_dateIter {a b d : ℤ} (h1 : a ≤ d) (h2 : d ≤ b) :
    (dateIter a b)[(d - a).toNat]? = some d := by
  have hd : a + (((d - a).toNat : ℕ) : ℤ) = d := by omega
  rw [dateIter, List.getElem?_map, List.getElem?_range (by omega), Option.map_some', hd]

theorem chain_dateIter (a b : ℤ) :
    List.Chain' (fun x y : ℤ => y = x + 1) (dateIter a b) := by
  rw [List.chain'_iff_get]
  intro i h
  simp only [dateIter, List.get_eq_getElem, List.getElem_map, List.getElem_range]
  push_cast
  ring

/-- `CapacityUtilizationReport._week_iter`, loop body: consume the remaining
day list while growing the current bucket `cur`; emit the bucket after a
Saturday (`weekday == 5`), and emit the leftover bucket at the end when it is
non-empty. -/
def weekChunks : List ℤ → List ℤ → List (List ℤ)
  | [], cur => if cur.isEmpty then [] else [cur]
  | d :: ds, cur =>
    if d % 7 = 5 then (cur ++ [d]) :: weekChunks ds []
    else weekChunks ds (cur ++ [d])

/-- `CapacityUtilizationReport._week_iter`: the week-bucket sequence of the
inclusive range, obtained by running the bucket loop over the day sequence
with an initially empty current bucket. -/
def weekIter (a b : ℤ) : List (List ℤ) := weekChunks (dateIter a b) []

theorem flatten_weekChunks : ∀ (ds cur : List ℤ), (weekChunks ds cur).flatten = cur ++ ds := by
  intro ds
  induction ds with
  | nil =>
    intro cur
    rw [weekChunks]
    split
    · next h => simp_all [List.isEmpty_iff]
    · simp
  | cons d ds ih =>
    intro cur
    rw [weekChunks]
    split
    · simp [ih]
    · simp [ih]

theorem ne_nil_of_mem_weekChunks :
    ∀ (ds cur : List ℤ), ∀ w ∈ weekChunks ds cur, w ≠ [] := by
  intro ds
  induction ds with
  | nil =>
    intro cur w hw
    rw [weekChunks] at hw
    split at hw
    · simp at hw
    · next h =>
      rw [List.mem_singleton] at hw
      subst hw
      simpa [List.isEmpty_iff] using h
  | cons d ds ih =>
    intro cur w hw
    rw [weekChunks] at hw
    split at hw
    · rcases List.mem_cons.mp hw with rfl | hw'
      · simp
      · exact ih [] w hw'
    · exact ih (cur ++ [d]) w hw

theorem chain_of_mem_weekChunks :
    ∀ (ds cur : List ℤ),
      List.Chain' (fun x y : ℤ => y = x + 1) ds →
      List.Chain' (fun x y : ℤ => y = x + 1) cur →
      (∀ x ∈ cur.getLast?, ∀ y ∈ ds.head?, y = x + 1) →
      ∀ w ∈ weekChunks ds cur, List.Chain' (fun x y : ℤ => y = x + 1) w := by
  intro ds
  induction ds with
  | nil =>
    intro cur _ hcur _ w hw
    rw [weekChunks] at hw
    split at hw
    · simp at hw
    · rw [List.mem_singleton] at hw
      subst hw
      exact hcur
  | cons d ds ih =>
    intro cur hds hcur hlink w hw
    rw [List.chain'_cons'] at hds
    have hcur' : List.Chain' (fun x y : ℤ => y = x + 1) (cur ++ [d]) := by
      rw [List.chain'_append]
      refine ⟨hcur, List.chain'_singleton d, ?_⟩
      intro x hx y hy
      simp only [List.head?_cons, Option.mem_def, Option.some.injEq] at hy
      subst hy
      exact hlink x hx d (by simp)
    rw [weekChunks] at hw
    split at hw
    · rcases List.mem_cons.mp hw with rfl | hw'
      · exact hcur'
      · exact ih [] hds.2 List.chain'_nil (by simp) w hw'
    · refine ih (cur ++ [d]) hds.2 hcur' ?_ w hw
      intro x hx y hy
      rw [List.getLast?_concat] at hx
      rw [Option.mem_def, Option.some.injEq] at hx
      subst hx
      exact hds.1 y hy

theorem sat_of_mem_dropLast_weekChunks :
    ∀ (ds cur : List ℤ), ∀ w ∈ (weekChunks ds cur).dropLast, w.getLast?.getD 0 % 7 = 5 := by
  intro ds
  induction ds with
  | nil =>
    intro cur w hw
    rw [weekChunks] at hw
    split at hw
    · simp at hw
    · simp at hw
  | cons d ds ih =>
    intro cur w hw
    rw [weekChunks] at hw
    split at hw
    · next hsat =>
      rcases hrest : weekChunks ds [] with _ | ⟨r, rs⟩
      · rw [hrest] at hw
        simp at hw
      · rw [hrest, List.dropLast_cons₂] at hw
        rcases List.mem_cons.mp hw with rfl | hw'
        · rw [List.getLast?_concat]
          simpa using hsat
        · exact ih [] w (by rw [hrest]; exact hw')
    · exact ih (cur ++ [d]) w hw

/-- C1: concatenating, in order, the week buckets produced by `_week_iter`
yields exactly the day sequence produced by `_date_iter`; every bucket except
possibly the last ends on a Saturday (Python `weekday() == 5`); and each
bucket is a non-empty run of consecutive ascending dates. -/
theorem c1_week_buckets_partition_days (a b : ℤ) :
    (weekIter a b).flatten = dateIter a b
    ∧ (∀ w ∈ weekIter a b, w ≠ [] ∧ List.Chain' (fun x y : ℤ => y = x + 1) w)
    ∧ (∀ w ∈ (weekIter a b).dropLast, w.getLast?.getD 0 % 7 = 5) := by
  refine ⟨?_, ?_, ?_⟩
  · simpa using flatten_weekChunks (dateIter a b) []
  · intro w hw
    exact ⟨ne_nil_of_mem_weekChunks _ _ w hw,
      chain_of_mem_weekChunks _ [] (chain_dateIter a b) List.chain'_nil (by simp) w hw⟩
  · exact sat_of_mem_dropLast_weekChunks (dateIter a b) []

theorem c1_week_buckets_partition_days_witness :
    (weekIter 0 9).flatten = dateIter 0 9
    ∧ weekIter 0 9 = [[0, 1, 2, 3, 4, 5], [6, 7, 8, 9]] :=
  ⟨(c1_week_buckets_partition_days 0 9).1, by decide⟩

/-- C2: for `a ≤ b` the day sequence has exactly `(b - a) + 1` elements,
starts at `a`, ends at `b`, and is a gap-free strictly ascending run of
consecutive dates; for `a > b` both the day sequence and the week-bucket
sequence are empty (no error is possible, the functions are total). -/
theorem c2_date_iter_shape (a b : ℤ) :
    (a ≤ b →
      (dateIter a b).length = (b - a).toNat + 1
      ∧ (dateIter a b).head? = some a
      ∧ (dateIter a b).getLast? = some b
      ∧ List.Chain' (fun x y : ℤ => y = x + 1) (dateIter a b))
    ∧ (b < a → dateIter a b = [] ∧ weekIter a b = []) := by
  constructor
  · intro h
    refine ⟨?_, ?_, ?_, chain_dateIter a b⟩
    · rw [length_dateIter]
      omega
    · rw [dateIter_step h]
      rfl
    · rw [List.getLast?_eq_getElem?, length_dateIter]
      have hi : (b + 1 - a).toNat - 1 = (b - a).toNat := by omega
      rw [hi]
      exact getElem?_dateIter h le_rfl
  · intro h
    have h1 : dateIter a b = [] := dateIter_stop h
    refine ⟨h1, ?_⟩
    rw [weekIter, h1]
    rfl

theorem c2_date_iter_shape_witness :
    (dateIter 3 7).length = 5
    ∧ (dateIter 3 7).head? = some 3
    ∧ (dateIter 3 7).getLast? = some 7
    ∧ dateIter 8 7 = []
    ∧ weekIter 8 7 = [] := by
  have h1 := (c2_date_iter_shape 3 7).1 (by decide)
  have h2 := (c2_date_iter_shape 8 7).2 (by decide)
  exact ⟨h1.1, h1.2.1, h1.2.2.1, h2.1, h2.2⟩

/-! ## Data model

Records mirror the database rows the exporter reads: events (with the
`AgencyNumber` metadata value inlined, since only that one attribute is ever
consulted), sub-events, quotas, and order positions (with their order's
status and the existence of a check-in inlined, matching the annotated
querysets of the source). -/

/-- Minutes per calendar day; timestamps are minute counts. -/
def minutesPerDay : ℤ := 1440

/-- `TruncDay(...)` in the report time zone followed by `.date()`: the day
index containing a timestamp. -/
def dayOf (ts : ℤ) : ℤ := ts / minutesPerDay

/-- `self.datetime_from`: midnight starting `date_from`. -/
def wLo (a : ℤ) : ℤ := minutesPerDay * a

/-- `self.datetime_until`: midnight after `date_to` (start of `date_to + 1`). -/
def wHi (b : ℤ) : ℤ := minutesPerDay * (b + 1)

/-- A pretix `Event`: primary key, name, slug, `has_subevents`, its own
`date_from` timestamp, and its `AgencyNumber` metadata value. -/
structure Event where
  pk : ℕ
  name : String
  slug : String
  hasSubevents : Bool
  dateFrom : ℤ
  agency : String
deriving DecidableEq

/-- A pretix `SubEvent` row: owning event and `date_from` timestamp. -/
structure SubEv where
  eventId : ℕ
  dateFrom : ℤ
deriving DecidableEq

/-- A pretix `Quota` row: owning event, optional sub-event scope (carrying
the sub-event's `date_from`), and nullable `size`. -/
structure Quota where
  eventId : ℕ
  subevent : Option ℤ
  size : Option ℤ
deriving DecidableEq

/-- The order statuses distinguished by the exporter's filters. -/
inductive OrderStatus
  | paid
  | pending
  | other
deriving DecidableEq

/-- A pretix `OrderPosition` row: owning order's event and status, optional
sub-event scope (carrying its `date_from`), and whether at least one
`Checkin` row points at the position. -/
structure OrderPosition where
  eventId : ℕ
  subevent : Option ℤ
  status : OrderStatus
  hasCheckin : Bool
deriving DecidableEq

/-- The read-only snapshot a report invocation sees: the selected events and
the raw fact rows. -/
structure Env where
  events : List Event
  subevents : List SubEv
  quotas : List Quota
  positions : List OrderPosition

/-- Foreign-key resolution of an event id inside the selected event set
(also plays the role of the `event__in=self.events` constraint). -/
def findEvent (evs : List Event) (pk : ℕ) : Option Event :=
  evs.find? (fun e => e.pk == pk)

/-- SQL comparison `subevent__date_from >= lo AND subevent__date_from < hi`
through a nullable foreign key: false when `subevent` is NULL. -/
def subevInWindow (lo hi : ℤ) : Option ℤ → Bool
  | some ts => decide (lo ≤ ts) && decide (ts < hi)
  | none => false

/-- `CapacityUtilizationReport._base_quota_qs` with no product filter
selected (the default) and `sel` the selected `AgencyNumber` values.  The
first conjunct is the `Q(...) | Q(...)` disjunction of the source; the second
conjunct is the pair of unconditional `subevent__date_from__gte` /
`subevent__date_from__lt` filter arguments that follow it, which are false
for a NULL `subevent`. -/
def quotaInBaseQS (evs : List Event) (sel : List String) (lo hi : ℤ) (q : Quota) : Bool :=
  match findEvent evs q.eventId with
  | none => false
  | some e =>
    (subevInWindow lo hi q.subevent
        || (q.subevent.isNone && decide (lo ≤ e.dateFrom) && decide (e.dateFrom < hi)))
      && subevInWindow lo hi q.subevent
      && sel.contains e.agency

/-- `TruncDay(Coalesce('subevent__date_from', 'event__date_from'))` for a
quota row (`0` for a dangling event id, which the filters already exclude). -/
def quotaDay (evs : List Event) (q : Quota) : ℤ :=
  match findEvent evs q.eventId with
  | none => 0
  | some e => dayOf (q.subevent.getD e.dateFrom)

/-- The `quotas` aggregation map of `iterate_sheet`
(`_base_quota_qs(...).filter(size__isnull=False)` grouped by
`(day, event_id)` with `Sum('size')`), composed with the
`quotas.get((dt, e.pk), 0) or 0` lookup every view performs: the summed size
for the key, `0` when the key is absent. -/
def quotasLookup (env : Env) (sel : List String) (lo hi dt : ℤ) (pk : ℕ) : ℤ :=
  ((env.quotas.filter (fun q =>
      quotaInBaseQS env.events sel lo hi q
        && q.size.isSome
        && (quotaDay env.events q == dt)
        && (q.eventId == pk))).map (fun q => q.size.getD 0)).sum

/-- `CapacityUtilizationReport._base_position_qs` with no product filter
selected: the window disjunction, the paid-or-pending status filter, the
`AgencyNumber` filter, and (when `requireCheckin` is set) the
`Exists(Checkin...)` annotation filter. -/
def posInBaseQS (evs : List Event) (sel : List String) (lo hi : ℤ)
    (requireCheckin : Bool) (p : OrderPosition) : Bool :=
  match findEvent evs p.eventId with
  | none => false
  | some e =>
    (subevInWindow lo hi p.subevent
        || (p.subevent.isNone && decide (lo ≤ e.dateFrom) && decide (e.dateFrom < hi)))
      && (p.status == .paid || p.status == .pending)
      && sel.contains e.agency
      && (!requireCheckin || p.hasCheckin)

/-- `TruncDay(Coalesce('subevent__date_from', 'order__event__date_from'))`
for a position row. -/
def posDay (evs : List Event) (p : OrderPosition) : ℤ :=
  match findEvent evs p.eventId with
  | none => 0
  | some e => dayOf (p.subevent.getD e.dateFrom)

/-- The `orders` (and, with `requireCheckin`, the `checkins`) aggregation map
of `iterate_sheet`, composed with the defaulted dictionary lookup: the count
of matching positions for `(dt, pk)`, `0` when absent. -/
def positionsLookup (env : Env) (sel : List String) (lo hi : ℤ)
    (requireCheckin : Bool) (dt : ℤ) (pk : ℕ) : ℤ :=
  ((env.positions.filter (fun p =>
      posInBaseQS env.events sel lo hi requireCheckin p
        && (posDay env.events p == dt)
        && (p.eventId == pk))).length : ℤ)

/-- `CapacityUtilizationReport._subevent_qs` with no product filter selected:
window on the sub-event's own `date_from`, plus the `AgencyNumber` filter. -/
def subevInQS (evs : List Event) (sel : List String) (lo hi : ℤ) (s : SubEv) : Bool :=
  (decide (lo ≤ s.dateFrom) && decide (s.dateFrom < hi))
    && (match findEvent evs s.eventId with
        | none => false
        | some e => sel.contains e.agency)

/-- The `subevs` aggregation map of `iterate_sheet`, composed with the
defaulted dictionary lookup: the count of matching sub-events (timeslots) for
`(dt, pk)`, `0` when absent. -/
def subevsLookup (env : Env) (sel : List String) (lo hi dt : ℤ) (pk : ℕ) : ℤ :=
  ((env.subevents.filter (fun s =>
      subevInQS env.events sel lo hi s
        && (dayOf s.dateFrom == dt)
        && (s.eventId == pk))).length : ℤ)

/-- The four maps as handed to the sheet generators, for the inclusive date
range `[a, b]`: timeslot counts. -/
def mapS (env : Env) (sel : List String) (a b : ℤ) : ℤ → ℕ → ℤ :=
  subevsLookup env sel (wLo a) (wHi b)

/-- Quota sums map for `[a, b]`. -/
def mapQ (env : Env) (sel : List String) (a b : ℤ) : ℤ → ℕ → ℤ :=
  quotasLookup env sel (wLo a) (wHi b)

/-- Order counts map for `[a, b]`. -/
def mapO (env : Env) (sel : List String) (a b : ℤ) : ℤ → ℕ → ℤ :=
  positionsLookup env sel (wLo a) (wHi b) false

/-- Check-in counts map for `[a, b]`. -/
def mapC (env : Env) (sel : List String) (a b : ℤ) : ℤ → ℕ → ℤ :=
  positionsLookup env sel (wLo a) (wHi b) true

/-- C8: a quota whose size is NULL (unbounded) never contributes to any
quota sum: prepending such a record to the quota store leaves every value of
the quota aggregation map unchanged; the record is skipped before summation
rather than counted as zero. -/
theorem c8_null_size_quotas_excluded
    (env : Env) (sel : List String) (lo hi dt : ℤ) (pk : ℕ) (q : Quota)
    (h : q.size = none) :
    quotasLookup { env with quotas := q :: env.quotas } sel lo hi dt pk
      = quotasLookup env sel lo hi dt pk := by
  simp only [quotasLookup, List.filter_cons, h]
  simp

/-- Event used by the C8 witness. -/
def evC8 : Event := ⟨1, "w", "w", true, 600, "A"⟩

/-- Environment of the C8 witness: one event, one sized quota. -/
def envC8 : Env := ⟨[evC8], [], [⟨1, some 0, some 7⟩], []⟩

theorem c8_null_size_quotas_excluded_witness :
    (⟨1, none, none⟩ : Quota).size = none
    ∧ quotasLookup { envC8 with quotas := ⟨1, none, none⟩ :: envC8.quotas } ["A"] 0 1440 0 1
        = quotasLookup envC8 ["A"] 0 1440 0 1
    ∧ quotasLookup envC8 ["A"] 0 1440 0 1 = 7 :=
  ⟨rfl, c8_null_size_quotas_excluded envC8 ["A"] 0 1440 0 1 ⟨1, none, none⟩ rfl, by decide⟩

/-- Entity of the C3 failing input: no sub-events, own start timestamp
inside day 10, agency value selected. -/
def evC3 : Event := ⟨1, "e", "e", false, minutesPerDay * 10 + 600, "A"⟩

/-- Failing quota of C3: not scoped to any sub-occurrence, non-null size. -/
def qC3 : Quota := ⟨1, none, some 100⟩

/-- Environment of the C3 failing input. -/
def envC3 : Env := ⟨[evC3], [], [qC3], []⟩

/-- C3 (evaluation at the failing input): `qC3` has a non-null size, is not
scoped to a sub-occurrence, belongs to a selected event, and its day — the
entity's own start date, day 10 — lies inside the query window
`[start_of(10), start_of(11))`; the claim therefore requires it to
contribute 100 to the `(day 10, event 1)` quota sum, yet the built map holds
no value for that key (the lookup yields 0): the unconditional
`subevent__date_from` filters of `_base_quota_qs` discard every quota whose
`subevent` is NULL, making the `Q(subevent__isnull=True, ...)` branch of the
disjunction dead code. -/
theorem c3_parentless_quota_dropped :
    qC3.size = some 100
    ∧ qC3.subevent = none
    ∧ evC3.agency ∈ ["A"]
    ∧ wLo 10 ≤ evC3.dateFrom ∧ evC3.dateFrom < wHi 10
    ∧ dayOf evC3.dateFrom = 10
    ∧ mapQ envC3 ["A"] 10 10 10 evC3.pk = 0 := by
  refine ⟨rfl, rfl, by decide, by decide, by decide, by decide, by decide⟩

/-! ## Pivot view generators -/

/-- A printable output cell.  `date d` stands for `d.strftime('%m/%d/%Y')`
(the formatting is injective on day indexes), `num` for an integer cell. -/
inductive Cell
  | str (s : String)
  | date (d : ℤ)
  | num (n : ℤ)
deriving DecidableEq

/-- Stable insertion used by `sortByName`. -/
def insertByName (e : Event) : List Event → List Event
  | [] => [e]
  | x :: xs => if e.name ≤ x.name then e :: x :: xs else x :: insertByName e xs

/-- `sorted(..., key=lambda e: str(e.name))`. -/
def sortByName : List Event → List Event
  | [] => []
  | x :: xs => insertByName x (sortByName xs)

/-- `sorted([e for e in self.cached_events if e.meta_data['AgencyNumber'] == mv],
key=lambda e: str(e.name))`: one agency group. -/
def groupEvents (cached : List Event) (mv : String) : List Event :=
  sortByName (cached.filter (fun e => e.agency == mv))

/-- Header row of the "by date, agency, and event" sheet. -/
def headerDAE : List Cell :=
  [.str "Date of Event", .str "AgencyNumber", .str "Event ID", .str "Number of Timeslots",
    .str "Sum of Quota", .str "Sum of Orders", .str "Sum of Checked in"]

/-- Inner loops of `iterate_date_agency_event` for one (agency value, entity)
pair: one candidate row per date of the range, skipped (`continue`) when the
entity has sub-events and its timeslot count for the day is zero. -/
def rowsForEntity (a b : ℤ) (Ms Mq Mo Mc : ℤ → ℕ → ℤ) (mv : String) (e : Event) :
    List (List Cell) :=
  (dateIter a b).filterMap (fun dt =>
    if e.hasSubevents && (Ms dt e.pk == 0) then none
    else some [.date dt, .str mv, .str e.slug, .num (Ms dt e.pk),
      .num (Mq dt e.pk), .num (Mo dt e.pk), .num (Mc dt e.pk)])

/-- `CapacityUtilizationReport.iterate_date_agency_event`.  The four map
arguments are the aggregation maps of `iterate_sheet`, already composed with
the `.get(key, 0)` (and, for quotas, `or 0`) defaulted lookup. -/
def iterate_date_agency_event (cached : List Event) (sel : List String) (a b : ℤ)
    (Ms Mq Mo Mc : ℤ → ℕ → ℤ) : List (List Cell) :=
  headerDAE :: sel.flatMap (fun mv =>
    (groupEvents cached mv).flatMap (fun e => rowsForEntity a b Ms Mq Mo Mc mv e))

/-- Header row of the "by date and agency" sheet. -/
def headerDA : List Cell :=
  [.str "Date of Event", .str "AgencyNumber", .str "Number of Events",
    .str "Sum of Quotas", .str "Sum of Orders", .str "Sum of Checked in"]

/-- `1 if not e.has_subevents or subevs.get((dt, e.pk), 0) else 0`: whether
an entity counts as active on a day. -/
def activeB (Ms : ℤ → ℕ → ℤ) (dt : ℤ) (e : Event) : Bool :=
  !e.hasSubevents || !(Ms dt e.pk == 0)

/-- Loop body of `iterate_date_agency` for one (agency value, date): skipped
(`continue`) when no entity of the group is active that day. -/
def dayAggRow (evs : List Event) (Ms Mq Mo Mc : ℤ → ℕ → ℤ) (mv : String) (dt : ℤ) :
    Option (List Cell) :=
  let evcnt : ℤ := ((evs.filter (activeB Ms dt)).length : ℤ)
  if evcnt == 0 then none
  else some [.date dt, .str mv, .num evcnt,
    .num ((evs.map (fun e => Mq dt e.pk)).sum),
    .num ((evs.map (fun e => Mo dt e.pk)).sum),
    .num ((evs.map (fun e => Mc dt e.pk)).sum)]

/-- Rows of `iterate_date_agency` for one agency value. -/
def rowsForMV (cached : List Event) (a b : ℤ) (Ms Mq Mo Mc : ℤ → ℕ → ℤ) (mv : String) :
    List (List Cell) :=
  (dateIter a b).filterMap (dayAggRow (groupEvents cached mv) Ms Mq Mo Mc mv)

/-- `CapacityUtilizationReport.iterate_date_agency`. -/
def iterate_date_agency (cached : List Event) (sel : List String) (a b : ℤ)
    (Ms Mq Mo Mc : ℤ → ℕ → ℤ) : List (List Cell) :=
  headerDA :: sel.flatMap (rowsForMV cached a b Ms Mq Mo Mc)

/-- One metric cell of the matrix sheets: the metric summed over a list of
entities at one date. -/
def cellOfDay (evs : List Event) (M : ℤ → ℕ → ℤ) (dt : ℤ) : ℤ :=
  (evs.map (fun e => M dt e.pk)).sum

/-- One metric sub-row of the by-day matrix: a cell per date of the range. -/
def dayMetricCells (evs : List Event) (M : ℤ → ℕ → ℤ) (a b : ℤ) : List ℤ :=
  (dateIter a b).map (cellOfDay evs M)

/-- A matrix sub-row: two label cells followed by the numeric cells. -/
def metricRow (c1 c2 : String) (vals : List ℤ) : List Cell :=
  .str c1 :: .str c2 :: vals.map .num

/-- `CapacityUtilizationReport.iterate_agency_date_day`: date header row; for
each selected agency value three metric sub-rows over the agency group plus a
blank separator; then the trailing "Total" block summed over all of
`self.cached_events`. -/
def iterate_agency_date_day (cached : List Event) (sel : List String) (a b : ℤ)
    (Ms Mq Mo Mc : ℤ → ℕ → ℤ) : List (List Cell) :=
  (Cell.str "AgencyNumber" :: Cell.str "" :: (dateIter a b).map Cell.date)
    :: (sel.flatMap (fun mv =>
          [metricRow mv "Sum of Quotas" (dayMetricCells (groupEvents cached mv) Mq a b),
            metricRow "" "Sum of Orders" (dayMetricCells (groupEvents cached mv) Mo a b),
            metricRow "" "Sum of Checked in" (dayMetricCells (groupEvents cached mv) Mc a b),
            []])
        ++ [metricRow "Total" "Sum of Quotas" (dayMetricCells cached Mq a b),
            metricRow "" "Sum of Orders" (dayMetricCells cached Mo a b),
            metricRow "" "Sum of Checked in" (dayMetricCells cached Mc a b)])

/-- One metric sub-row of the by-week matrix: a cell per week bucket, the
metric summed over the entities and over every date of the bucket. -/
def weekMetricCells (evs : List Event) (M : ℤ → ℕ → ℤ) (a b : ℤ) : List ℤ :=
  (weekIter a b).map (fun w => (w.map (cellOfDay evs M)).sum)

/-- `CapacityUtilizationReport.iterate_agency_date_week`: three header rows
("Week", each bucket's first day, each bucket's last day), then the same
block structure as the by-day matrix with week buckets as columns. -/
def iterate_agency_date_week (cached : List Event) (sel : List String) (a b : ℤ)
    (Ms Mq Mo Mc : ℤ → ℕ → ℤ) : List (List Cell) :=
  (Cell.str "" :: Cell.str "" :: (weekIter a b).map (fun _ => Cell.str "Week"))
    :: (Cell.str "" :: Cell.str "First day"
          :: (weekIter a b).map (fun w => Cell.date (w.head?.getD 0)))
    :: (Cell.str "AgencyNumber" :: Cell.str "Last day"
          :: (weekIter a b).map (fun w => Cell.date (w.getLast?.getD 0)))
    :: (sel.flatMap (fun mv =>
          [metricRow mv "Sum of Quotas" (weekMetricCells (groupEvents cached mv) Mq a b),
            metricRow "" "Sum of Orders" (weekMetricCells (groupEvents cached mv) Mo a b),
            metricRow "" "Sum of Checked in" (weekMetricCells (groupEvents cached mv) Mc a b),
            []])
        ++ [metricRow "Total" "Sum of Quotas" (weekMetricCells cached Mq a b),
            metricRow "" "Sum of Orders" (weekMetricCells cached Mo a b),
            metricRow "" "Sum of Checked in" (weekMetricCells cached Mc a b)])

/-- `CapacityUtilizationReport.iterate_sheet`: build the four aggregation
maps once per invocation, then dispatch on the sheet key.  The source guards
the dispatch with `hasattr(self, 'iterate_' + sheet)` and silently yields
nothing when no row generator matches — the final `else []` branch; no
exception is raised on an unknown key. -/
def iterate_sheet (env : Env) (sel : List String) (a b : ℤ) (sheet : String) :
    List (List Cell) :=
  let Ms := mapS env sel a b
  let Mq := mapQ env sel a b
  let Mo := mapO env sel a b
  let Mc := mapC env sel a b
  if sheet = "date_agency_event" then iterate_date_agency_event env.events sel a b Ms Mq Mo Mc
  else if sheet = "date_agency" then iterate_date_agency env.events sel a b Ms Mq Mo Mc
  else if sheet = "agency_date_day" then iterate_agency_date_day env.events sel a b Ms Mq Mo Mc
  else if sheet = "agency_date_week" then iterate_agency_date_week env.events sel a b Ms Mq Mo Mc
  else []

/-! ## Claim theorems about the views -/

/-- Environment of the C9 failing input. -/
def envC9 : Env := ⟨[], [], [], []⟩

/-- C9 (evaluation at the failing input): requesting a sheet key with no
matching registered row generator does not fail loudly — `iterate_sheet`
silently produces no rows at all (the `hasattr` guard skips the dispatch and
nothing raises), whereas a registered key still yields its header row even
over an empty store. -/
theorem c9_unknown_sheet_silently_empty :
    iterate_sheet envC9 ["A"] 0 6 "bogus_sheet" = []
    ∧ iterate_sheet envC9 ["A"] 0 6 "date_agency" = [headerDA] := by
  constructor
  · rfl
  · decide

/-- C10: an entity whose has-sub-events flag is false is never suppressed:
"by date, agency, and event" emits exactly one row for it on every date of
the range, whatever the recorded activity (all-zero rows included), and "by
date and agency" counts it as active on every date; only the
`e.has_subevents and not subevcnt` test can skip a row, so only flagged
entities are filtered by their per-day timeslot count. -/
theorem c10_parentless_entities_always_included
    (a b : ℤ) (Ms Mq Mo Mc : ℤ → ℕ → ℤ) (mv : String) (e : Event)
    (h : e.hasSubevents = false) :
    rowsForEntity a b Ms Mq Mo Mc mv e
      = (dateIter a b).map (fun dt =>
          [.date dt, .str mv, .str e.slug, .num (Ms dt e.pk),
            .num (Mq dt e.pk), .num (Mo dt e.pk), .num (Mc dt e.pk)])
    ∧ ∀ dt : ℤ, activeB Ms dt e = true := by
  constructor
  · rw [rowsForEntity]
    have hmap :
        (fun dt : ℤ =>
            if e.hasSubevents && (Ms dt e.pk == 0) then none
            else some [Cell.date dt, .str mv, .str e.slug, .num (Ms dt e.pk),
              .num (Mq dt e.pk), .num (Mo dt e.pk), .num (Mc dt e.pk)])
          = (fun dt : ℤ => some [Cell.date dt, .str mv, .str e.slug, .num (Ms dt e.pk),
              .num (Mq dt e.pk), .num (Mo dt e.pk), .num (Mc dt e.pk)]) := by
      funext dt
      rw [h]
      rfl
    rw [hmap]
    exact congrFun (List.filterMap_eq_map _) _
  · intro dt
    rw [activeB, h]
    rfl

/-- Entity used by the C10 witness. -/
def evC10 : Event := ⟨1, "n", "s", false, 0, "A"⟩

theorem c10_parentless_entities_always_included_witness :
    rowsForEntity 0 1 (fun _ _ => 0) (fun _ _ => 0) (fun _ _ => 0) (fun _ _ => 0) "A" evC10
      = [[Cell.date 0, .str "A", .str "s", .num 0, .num 0, .num 0, .num 0],
          [Cell.date 1, .str "A", .str "s", .num 0, .num 0, .num 0, .num 0]]
    ∧ activeB (fun _ _ => 0) 0 evC10 = true := by
  have h := c10_parentless_entities_always_included 0 1 (fun _ _ => 0) (fun _ _ => 0)
    (fun _ _ => 0) (fun _ _ => 0) "A" evC10 rfl
  exact ⟨h.1.trans (by decide), h.2 0⟩

/-- C5: in "by date, agency, and event", for an entity with sub-occurrences,
a data row for a date is emitted iff the timeslot count for the (date,
entity) key is at least one; the emitted row's cells are, in order, the
date, the agency value, the entity slug, the timeslot count, the quota sum,
the order count and the check-in count — each value read from its
aggregation map, which by construction substitutes 0 for absent keys and is
total (no lookup can raise); and the whole sheet is the header row followed
by exactly these per-entity row lists, grouped by selected agency value. -/
theorem c5_date_agency_event_rows
    (env : Env) (sel : List String) (a b : ℤ) (mv : String) (e : Event)
    (h : e.hasSubevents = true) :
    (∀ dt ∈ dateIter a b,
      ((∃ r ∈ rowsForEntity a b (mapS env sel a b) (mapQ env sel a b) (mapO env sel a b)
            (mapC env sel a b) mv e, r.head? = some (Cell.date dt))
        ↔ 1 ≤ mapS env sel a b dt e.pk))
    ∧ (∀ dt ∈ dateIter a b, 1 ≤ mapS env sel a b dt e.pk →
        [Cell.date dt, .str mv, .str e.slug, .num (mapS env sel a b dt e.pk),
            .num (mapQ env sel a b dt e.pk), .num (mapO env sel a b dt e.pk),
            .num (mapC env sel a b dt e.pk)]
          ∈ rowsForEntity a b (mapS env sel a b) (mapQ env sel a b) (mapO env sel a b)
              (mapC env sel a b) mv e)
    ∧ iterate_sheet env sel a b "date_agency_event"
        = headerDAE :: sel.flatMap (fun m =>
            (groupEvents env.events m).flatMap
              (rowsForEntity a b (mapS env sel a b) (mapQ env sel a b) (mapO env sel a b)
                (mapC env sel a b) m)) := by
  have hnn : ∀ dt : ℤ, 0 ≤ mapS env sel a b dt e.pk := fun dt => Int.natCast_nonneg _
  refine ⟨?_, ?_, ?_⟩
  · intro dt hdt
    constructor
    · rintro ⟨r, hr, hhead⟩
      rw [rowsForEntity] at hr
      rcases List.mem_filterMap.mp hr with ⟨dt2, hdt2, hf⟩
      by_cases hc : (e.hasSubevents && (mapS env sel a b dt2 e.pk == 0)) = true
      · rw [if_pos hc] at hf
        cases hf
      · rw [if_neg hc] at hf
        have hr2 := Option.some.inj hf
        subst hr2
        simp only [List.head?_cons, Option.some.injEq, Cell.date.injEq] at hhead
        subst hhead
        rw [h, Bool.true_and, beq_iff_eq] at hc
        have := hnn dt2
        omega
    · intro h1
      have hcond : (e.hasSubevents && (mapS env sel a b dt e.pk == 0)) = false := by
        rw [h, Bool.true_and, beq_eq_false_iff_ne]
        omega
      refine ⟨[Cell.date dt, .str mv, .str e.slug, .num (mapS env sel a b dt e.pk),
          .num (mapQ env sel a b dt e.pk), .num (mapO env sel a b dt e.pk),
          .num (mapC env sel a b dt e.pk)], ?_, rfl⟩
      rw [rowsForEntity]
      refine List.mem_filterMap.mpr ⟨dt, hdt, ?_⟩
      rw [hcond]
      rfl
  · intro dt hdt h1
    have hcond : (e.hasSubevents && (mapS env sel a b dt e.pk == 0)) = false := by
      rw [h, Bool.true_and, beq_eq_false_iff_ne]
      omega
    rw [rowsForEntity]
    refine List.mem_filterMap.mpr ⟨dt, hdt, ?_⟩
    rw [hcond]
    rfl
  · rfl

/-- Environment of the C5 witness: one flagged entity with one timeslot and
one paid, checked-in position on day 0, and an empty day 1. -/
def envC5 : Env :=
  ⟨[⟨1, "e", "e", true, 0, "A"⟩], [⟨1, 60⟩],
    [⟨1, some 60, some 100⟩], [⟨1, some 60, .paid, true⟩]⟩

theorem c5_date_agency_event_rows_witness :
    (1 ≤ mapS envC5 ["A"] 0 1 0 1
      ∧ [Cell.date 0, .str "A", .str "e", .num 1, .num 100, .num 1, .num 1]
          ∈ rowsForEntity 0 1 (mapS envC5 ["A"] 0 1) (mapQ envC5 ["A"] 0 1)
              (mapO envC5 ["A"] 0 1) (mapC envC5 ["A"] 0 1) "A" ⟨1, "e", "e", true, 0, "A"⟩)
    ∧ ¬ (1 ≤ mapS envC5 ["A"] 0 1 1 1) := by
  have h := c5_date_agency_event_rows envC5 ["A"] 0 1 "A" ⟨1, "e", "e", true, 0, "A"⟩ rfl
  refine ⟨⟨by decide, ?_⟩, by decide⟩
  have hmem := h.2.1 0 (by decide) (by decide)
  have hvals : (mapS envC5 ["A"] 0 1 0 1 = 1 ∧ mapQ envC5 ["A"] 0 1 0 1 = 100)
      ∧ mapO envC5 ["A"] 0 1 0 1 = 1 ∧ mapC envC5 ["A"] 0 1 0 1 = 1 := by decide
  rw [hvals.1.1, hvals.1.2, hvals.2.1, hvals.2.2] at hmem
  exact hmem

theorem dayAggRow_some_iff (evs : List Event) (Ms Mq Mo Mc : ℤ → ℕ → ℤ) (mv : String)
    (dt : ℤ) (r : List Cell) :
    dayAggRow evs Ms Mq Mo Mc mv dt = some r
      ↔ ((∃ e ∈ evs, activeB Ms dt e = true)
          ∧ r = [Cell.date dt, .str mv, .num ((evs.filter (activeB Ms dt)).length : ℤ),
              .num ((evs.map (fun e => Mq dt e.pk)).sum),
              .num ((evs.map (fun e => Mo dt e.pk)).sum),
              .num ((evs.map (fun e => Mc dt e.pk)).sum)]) := by
  simp only [dayAggRow]
  by_cases hc : evs.filter (activeB Ms dt) = []
  · have hz : ((((evs.filter (activeB Ms dt)).length : ℕ) : ℤ) == 0) = true := by
      rw [hc]
      rfl
    rw [if_pos hz]
    constructor
    · intro hcontra
      cases hcontra
    · rintro ⟨⟨e, he, hact⟩, -⟩
      exact absurd hact (List.filter_eq_nil_iff.mp hc e he)
  · have hz : ((((evs.filter (activeB Ms dt)).length : ℕ) : ℤ) == 0) = false := by
      rw [beq_eq_false_iff_ne]
      intro hcontra
      exact hc (List.length_eq_zero.mp (by exact_mod_cast hcontra))
    rw [hz]
    simp only [Bool.false_eq_true, if_false, Option.some.injEq]
    constructor
    · intro hsome
      refine ⟨?_, hsome.symm⟩
      rcases hfe : evs.filter (activeB Ms dt) with _ | ⟨x, xs⟩
      · exact absurd hfe hc
      · have hx : x ∈ evs.filter (activeB Ms dt) := by
          rw [hfe]
          exact List.mem_cons_self x xs
        have hx2 := List.mem_filter.mp hx
        exact ⟨x, hx2.1, hx2.2⟩
    · rintro ⟨-, rfl⟩
      rfl

theorem isSome_dayAggRow (evs : List Event) (Ms Mq Mo Mc : ℤ → ℕ → ℤ) (mv : String)
    (dt : ℤ) :
    (dayAggRow evs Ms Mq Mo Mc mv dt).isSome = evs.any (activeB Ms dt) := by
  rcases hrow : dayAggRow evs Ms Mq Mo Mc mv dt with _ | r
  · simp only [Option.isSome_none]
    symm
    rw [List.any_eq_false]
    intro e he hact
    have : dayAggRow evs Ms Mq Mo Mc mv dt = some _ :=
      (dayAggRow_some_iff evs Ms Mq Mo Mc mv dt _).mpr ⟨⟨e, he, hact⟩, rfl⟩
    rw [hrow] at this
    cases this
  · simp only [Option.isSome_some]
    symm
    rw [List.any_eq_true]
    rcases (dayAggRow_some_iff evs Ms Mq Mo Mc mv dt r).mp hrow with ⟨⟨e, he, hact⟩, -⟩
    exact ⟨e, he, hact⟩

theorem length_filterMap_of_isSome_eq {α β : Type} (f : α → Option β) (p : α → Bool)
    (h : ∀ x, (f x).isSome = p x) :
    ∀ l : List α, (l.filterMap f).length = (l.filter p).length := by
  intro l
  induction l with
  | nil => rfl
  | cons x xs ih =>
    rw [List.filterMap_cons, List.filter_cons]
    rcases hfx : f x with _ | y
    · have hp : p x = false := by
        rw [← h x, hfx]
        rfl
      rw [hp]
      simpa using ih
    · have hp : p x = true := by
        rw [← h x, hfx]
        rfl
      rw [hp]
      simpa using ih

/-- C6: in "by date and agency", for a selected agency value a row for a
date is emitted iff at least one entity of that agency group is active that
day; each emitted row holds the date, the agency value, the count of active
entities and the quota/order/check-in sums over all entities of the group;
no emitted row has an active-entity count of zero, and the number of data
rows equals the number of distinct dates with at least one active entity.
The sheet itself is the header row followed by these per-agency row lists. -/
theorem c6_date_agency_rows
    (env : Env) (sel : List String) (cached : List Event) (a b : ℤ)
    (Ms Mq Mo Mc : ℤ → ℕ → ℤ) (mv : String) :
    (iterate_sheet env sel a b "date_agency"
        = headerDA :: sel.flatMap (rowsForMV env.events a b (mapS env sel a b)
            (mapQ env sel a b) (mapO env sel a b) (mapC env sel a b)))
    ∧ (∀ dt ∈ dateIter a b,
        ((∃ r ∈ rowsForMV cached a b Ms Mq Mo Mc mv, r.head? = some (Cell.date dt))
          ↔ ∃ e ∈ groupEvents cached mv, activeB Ms dt e = true))
    ∧ (∀ dt ∈ dateIter a b, (∃ e ∈ groupEvents cached mv, activeB Ms dt e = true) →
        [Cell.date dt, .str mv,
            .num (((groupEvents cached mv).filter (activeB Ms dt)).length : ℤ),
            .num (((groupEvents cached mv).map (fun e => Mq dt e.pk)).sum),
            .num (((groupEvents cached mv).map (fun e => Mo dt e.pk)).sum),
            .num (((groupEvents cached mv).map (fun e => Mc dt e.pk)).sum)]
          ∈ rowsForMV cached a b Ms Mq Mo Mc mv)
    ∧ (∀ r ∈ rowsForMV cached a b Ms Mq Mo Mc mv, ¬ r[2]? = some (Cell.num 0))
    ∧ (rowsForMV cached a b Ms Mq Mo Mc mv).length
        = ((dateIter a b).filter (fun dt =>
            (groupEvents cached mv).any (activeB Ms dt))).length := by
  refine ⟨rfl, ?_, ?_, ?_, ?_⟩
  · intro dt hdt
    constructor
    · rintro ⟨r, hr, hhead⟩
      rw [rowsForMV] at hr
      rcases List.mem_filterMap.mp hr with ⟨dt2, hdt2, hf⟩
      rcases (dayAggRow_some_iff _ _ _ _ _ _ _ _).mp hf with ⟨hex, hrval⟩
      subst hrval
      simp only [List.head?_cons, Option.some.injEq, Cell.date.injEq] at hhead
      subst hhead
      exact hex
    · intro hex
      refine ⟨[Cell.date dt, .str mv,
          .num (((groupEvents cached mv).filter (activeB Ms dt)).length : ℤ),
          .num (((groupEvents cached mv).map (fun e => Mq dt e.pk)).sum),
          .num (((groupEvents cached mv).map (fun e => Mo dt e.pk)).sum),
          .num (((groupEvents cached mv).map (fun e => Mc dt e.pk)).sum)], ?_, rfl⟩
      rw [rowsForMV]
      exact List.mem_filterMap.mpr
        ⟨dt, hdt, (dayAggRow_some_iff _ _ _ _ _ _ _ _).mpr ⟨hex, rfl⟩⟩
  · intro dt hdt hex
    rw [rowsForMV]
    exact List.mem_filterMap.mpr
      ⟨dt, hdt, (dayAggRow_some_iff _ _ _ _ _ _ _ _).mpr ⟨hex, rfl⟩⟩
  · intro r hr
    rw [rowsForMV] at hr
    rcases List.mem_filterMap.mp hr with ⟨dt2, hdt2, hf⟩
    rcases (dayAggRow_some_iff _ _ _ _ _ _ _ _).mp hf with ⟨⟨e, he, hact⟩, hrval⟩
    subst hrval
    intro hcell
    simp only [List.getElem?_cons_succ, List.getElem?_cons_zero, Option.some.injEq,
      Cell.num.injEq] at hcell
    have hlenpos : 0 < ((groupEvents cached mv).filter (activeB Ms dt2)).length :=
      List.length_pos.mpr (by
        intro hnil
        exact absurd hact (List.filter_eq_nil_iff.mp hnil e he))
    omega
  · rw [rowsForMV]
    exact length_filterMap_of_isSome_eq _ _ (fun dt => isSome_dayAggRow _ _ _ _ _ _ dt)
      (dateIter a b)

/-- Entity used by generic witnesses. -/
def evT : Event := ⟨1, "t", "t", true, 0, "A"⟩

theorem c6_date_agency_rows_witness :
    ((rowsForMV [evC10] 0 1 (fun _ _ => 0) (fun _ _ => 0) (fun _ _ => 0) (fun _ _ => 0)
        "A").length
      = ((dateIter 0 1).filter (fun dt =>
          (groupEvents [evC10] "A").any (activeB (fun _ _ => 0) dt))).length)
    ∧ (rowsForMV [evC10] 0 1 (fun _ _ => 0) (fun _ _ => 0) (fun _ _ => 0) (fun _ _ => 0)
        "A").length = 2 :=
  ⟨(c6_date_agency_rows envC9 ["A"] [evC10] 0 1 (fun _ _ => 0) (fun _ _ => 0)
      (fun _ _ => 0) (fun _ _ => 0) "A").2.2.2.2, by decide⟩

/-- C7: each metric cell of the by-week matrix for a week bucket equals the
sum, over the dates of that bucket, of the by-day matrix cells of the same
metric located at those dates' positions in the day sequence.  Both matrix
sheets build every block (each agency block and the Total block) from
`dayMetricCells` respectively `weekMetricCells` over some entity list and
metric map, so the identity holds for all of them. -/
theorem c7_week_matrix_sums_day_matrix
    (evs : List Event) (M : ℤ → ℕ → ℤ) (a b : ℤ) (i : ℕ)
    (h : i < (weekIter a b).length) :
    (weekMetricCells evs M a b)[i]?
      = some (((weekIter a b)[i].map (fun dt =>
          ((dayMetricCells evs M a b)[(dt - a).toNat]?).getD 0)).sum) := by
  have hfl : (weekIter a b).flatten = dateIter a b := by
    simpa using flatten_weekChunks (dateIter a b) []
  have hw : (weekIter a b)[i] ∈ weekIter a b := List.getElem_mem h
  have hcells : ∀ dt ∈ (weekIter a b)[i],
      ((dayMetricCells evs M a b)[(dt - a).toNat]?).getD 0 = cellOfDay evs M dt := by
    intro dt hdt
    have hmem : dt ∈ dateIter a b := by
      rw [← hfl]
      exact List.mem_flatten.mpr ⟨_, hw, hdt⟩
    rcases mem_dateIter.mp hmem with ⟨h1, h2⟩
    rw [dayMetricCells, List.getElem?_map, getElem?_dateIter h1 h2]
    rfl
  rw [weekMetricCells, List.getElem?_map, List.getElem?_eq_getElem h, Option.map_some']
  refine congrArg some (congrArg List.sum ?_)
  exact (List.map_congr_left hcells).symm

theorem c7_week_matrix_sums_day_matrix_witness :
    1 < (weekIter 0 9).length
    ∧ (weekMetricCells [evT] (fun dt _ => dt) 0 9)[1]? = some 30 := by
  refine ⟨by decide, ?_⟩
  have h := c7_week_matrix_sums_day_matrix [evT] (fun dt _ => dt) 0 9 1 (by decide)
  rw [h]
  decide

theorem length_flatMap_four {α β : Type} (f : α → List β) (h : ∀ x, (f x).length = 4)
    (l : List α) : (l.flatMap f).length = 4 * l.length := by
  induction l with
  | nil => rfl
  | cons x xs ih =>
    rw [List.flatMap_cons, List.length_append, h, ih, List.length_cons]
    ring

theorem drop_day_totals (cached : List Event) (sel : List String) (a b : ℤ)
    (Ms Mq Mo Mc : ℤ → ℕ → ℤ) :
    (iterate_agency_date_day cached sel a b Ms Mq Mo Mc).drop (1 + 4 * sel.length)
      = [metricRow "Total" "Sum of Quotas" (dayMetricCells cached Mq a b),
          metricRow "" "Sum of Orders" (dayMetricCells cached Mo a b),
          metricRow "" "Sum of Checked in" (dayMetricCells cached Mc a b)] := by
  rw [iterate_agency_date_day, Nat.add_comm 1 (4 * sel.length), List.drop_succ_cons]
  exact List.drop_left' (length_flatMap_four
    (fun mv => [metricRow mv "Sum of Quotas" (dayMetricCells (groupEvents cached mv) Mq a b),
      metricRow "" "Sum of Orders" (dayMetricCells (groupEvents cached mv) Mo a b),
      metricRow "" "Sum of Checked in" (dayMetricCells (groupEvents cached mv) Mc a b),
      []])
    (fun mv => rfl) sel)

theorem drop_week_totals (cached : List Event) (sel : List String) (a b : ℤ)
    (Ms Mq Mo Mc : ℤ → ℕ → ℤ) :
    (iterate_agency_date_week cached sel a b Ms Mq Mo Mc).drop (3 + 4 * sel.length)
      = [metricRow "Total" "Sum of Quotas" (weekMetricCells cached Mq a b),
          metricRow "" "Sum of Orders" (weekMetricCells cached Mo a b),
          metricRow "" "Sum of Checked in" (weekMetricCells cached Mc a b)] := by
  rw [iterate_agency_date_week, Nat.add_comm 3 (4 * sel.length)]
  rw [show 4 * sel.length + 3 = (4 * sel.length + 2) + 1 by omega, List.drop_succ_cons]
  rw [show 4 * sel.length + 2 = (4 * sel.length + 1) + 1 by omega, List.drop_succ_cons]
  rw [List.drop_succ_cons]
  exact List.drop_left' (length_flatMap_four
    (fun mv => [metricRow mv "Sum of Quotas" (weekMetricCells (groupEvents cached mv) Mq a b),
      metricRow "" "Sum of Orders" (weekMetricCells (groupEvents cached mv) Mo a b),
      metricRow "" "Sum of Checked in" (weekMetricCells (groupEvents cached mv) Mc a b),
      []])
    (fun mv => rfl) sel)

/-- C4 (amended): in both matrix sheets the trailing Total block is, for each
metric, exactly the per-date (respectively per-week-bucket) sums of that
metric's aggregation-map values over every entity of the full entity list;
and with the four aggregation maps held fixed it is identical under any two
selections of agency values — the selection parameter only drives the
per-agency blocks above it.  The rendered Total nevertheless depends on the
selected agency values through the aggregation maps themselves, which the
orchestrator filters to the selected values (see
`c4_total_depends_on_selection`). -/
theorem c4_total_block_full_entity_sums
    (cached : List Event) (sel sel2 : List String) (a b : ℤ) (Ms Mq Mo Mc : ℤ → ℕ → ℤ) :
    ((iterate_agency_date_day cached sel a b Ms Mq Mo Mc).drop (1 + 4 * sel.length)
        = [metricRow "Total" "Sum of Quotas"
              ((dateIter a b).map (fun dt => (cached.map (fun e => Mq dt e.pk)).sum)),
            metricRow "" "Sum of Orders"
              ((dateIter a b).map (fun dt => (cached.map (fun e => Mo dt e.pk)).sum)),
            metricRow "" "Sum of Checked in"
              ((dateIter a b).map (fun dt => (cached.map (fun e => Mc dt e.pk)).sum))])
    ∧ ((iterate_agency_date_day cached sel a b Ms Mq Mo Mc).drop (1 + 4 * sel.length)
        = (iterate_agency_date_day cached sel2 a b Ms Mq Mo Mc).drop (1 + 4 * sel2.length))
    ∧ ((iterate_agency_date_week cached sel a b Ms Mq Mo Mc).drop (3 + 4 * sel.length)
        = [metricRow "Total" "Sum of Quotas"
              ((weekIter a b).map (fun w =>
                (w.map (fun dt => (cached.map (fun e => Mq dt e.pk)).sum)).sum)),
            metricRow "" "Sum of Orders"
              ((weekIter a b).map (fun w =>
                (w.map (fun dt => (cached.map (fun e => Mo dt e.pk)).sum)).sum)),
            metricRow "" "Sum of Checked in"
              ((weekIter a b).map (fun w =>
                (w.map (fun dt => (cached.map (fun e => Mc dt e.pk)).sum)).sum))])
    ∧ ((iterate_agency_date_week cached sel a b Ms Mq Mo Mc).drop (3 + 4 * sel.length)
        = (iterate_agency_date_week cached sel2 a b Ms Mq Mo Mc).drop (3 + 4 * sel2.length)) := by
  refine ⟨?_, ?_, ?_, ?_⟩
  · exact drop_day_totals cached sel a b Ms Mq Mo Mc
  · rw [drop_day_totals, drop_day_totals]
  · exact drop_week_totals cached sel a b Ms Mq Mo Mc
  · rw [drop_week_totals, drop_week_totals]

/-- Agency-"A" entity of the C4 counterexample. -/
def evC4A : Event := ⟨1, "a", "a", false, minutesPerDay * 5, "A"⟩

/-- Agency-"B" entity of the C4 counterexample, owner of the only quota. -/
def evC4B : Event := ⟨2, "b", "b", true, minutesPerDay * 5, "B"⟩

/-- Environment of the C4 counterexample: one agency-"B" quota of size 50,
scoped to a sub-occurrence on day 5. -/
def envC4 : Env := ⟨[evC4A, evC4B], [], [⟨2, some (minutesPerDay * 5), some 50⟩], []⟩

/-- C4 (counterexample): over the same full entity list and the same date
range, the trailing Total block of the rendered "by agency and day" sheet
differs between selecting only "A" and selecting "A" and "B" — the day-5
Total quota cell is 0 in the first case and 50 in the second — so the Total
value is not independent of which agency values were selected: the upstream
aggregation maps only hold records of entities with a selected value. -/
theorem c4_total_depends_on_selection :
    (iterate_sheet envC4 ["A"] 5 5 "agency_date_day").drop (1 + 4 * 1)
      ≠ (iterate_sheet envC4 ["A", "B"] 5 5 "agency_date_day").drop (1 + 4 * 2) := by
  decide
